import Mathlib

/-!
Shallow embedding of the enum library core (package enum and its internal
package): label lookup, validation, the marshal adapters and the error
taxonomy, together with theorems checking the stated contracts.

Go strings and byte slices are modelled as lists of natural numbers (the
byte values); Go string equality is byte equality, so list equality is a
faithful model. Go integer indices (any type with underlying kind int) are
modelled as Int: no code path performs arithmetic on an index that could
overflow, so the unbounded model agrees with the 64-bit one. Go functions
that return a (value, error) pair where the value is the zero value
whenever the error is non-nil are modelled with Except.
-/

/-- Model of a Go string or byte slice: the list of its byte values. -/
abbrev GoStr := List Nat

/-- Byte list of an ASCII string literal (for ASCII text the character
codes coincide with the UTF-8 bytes). -/
def gostr (s : String) : GoStr := s.data.map Char.toNat

/-- Model of the error taxonomy from internal errors.go, plus the plain
formatted error produced by fmt.Errorf in enum.go (constructor plain) and
the syntax error produced by the standard json.Unmarshal on malformed
input (constructor jsonMalformed). The indexOutOfBounds constructor models
the formatted error of ValidateIndex, which carries the index and the
label count in its message. -/
inductive Err where
  | invalidEnumValue (value : GoStr) (validValues : List GoStr)
  | binaryTooShort (expected actual : Nat)
  | binaryTruncated (expected actual : Nat)
  | labelTooLong (length maxLength : Nat)
  | indexOutOfBounds (index : Int) (numLabels : Nat)
  | plain (msg : GoStr)
  | jsonMalformed (input : List Nat)
  deriving DecidableEq

/-- Model of the Go slice copy performed by NewInvalidEnumValueError on
its validValues argument: a fresh list with the same elements. -/
def copyStrings (xs : List GoStr) : List GoStr := xs.map (fun s => s)

/-- NewInvalidEnumValueError from internal errors.go: copies the valid
values defensively and wraps both payloads. -/
def NewInvalidEnumValueError (value : GoStr) (validValues : List GoStr) : Err :=
  .invalidEnumValue value (copyStrings validValues)

/-- IsValidIndex from internal validation.go. -/
def IsValidIndex (labels : List GoStr) (index : Int) : Bool :=
  decide (0 ≤ index ∧ index < (labels.length : Int))

/-- ValidateIndex from internal validation.go: none models a nil error. -/
def ValidateIndex (labels : List GoStr) (index : Int) : Option Err :=
  if index < 0 ∨ (labels.length : Int) ≤ index then
    some (.indexOutOfBounds index labels.length)
  else none

/-- SafeGetLabel from internal validation.go. Inside the branch the index
is known in bounds, so getD models the Go indexing labels[int(index)]. -/
def SafeGetLabel (labels : List GoStr) (index : Int) (defaultLabel : GoStr) : GoStr :=
  if IsValidIndex labels index then labels.getD index.toNat defaultLabel
  else defaultLabel

/-- SafeGetLabelWithError from internal validation.go. ValidateIndex
passing guarantees the index is in bounds, so getD models labels[int(index)]. -/
def SafeGetLabelWithError (labels : List GoStr) (index : Int) : Except Err GoStr :=
  match ValidateIndex labels index with
  | some e => .error e
  | none => .ok (labels.getD index.toNat [])

/-- Loop of linearLookup from internal lookup.go, carrying the running
index of the range loop. -/
def linearLookupAux (target : GoStr) (i : Int) : List GoStr → Int × Bool
  | [] => (0, false)
  | label :: rest =>
    if label = target then (i, true) else linearLookupAux target (i + 1) rest

/-- linearLookup from internal lookup.go: scan left to right, return the
index of the first match, or the zero value and false. -/
def linearLookup (labels : List GoStr) (target : GoStr) : Int × Bool :=
  linearLookupAux target 0 labels

/-- Association list model of a Go map from string to an int-kinded type.
Assignment overwrites the entry of an existing key, as a Go map
assignment does; only key lookups are performed on these maps, so the
model is insensitive to Go map iteration order. -/
def mapInsert (m : List (GoStr × Int)) (k : GoStr) (v : Int) : List (GoStr × Int) :=
  match m with
  | [] => [(k, v)]
  | (k2, v2) :: rest =>
    if k2 = k then (k, v) :: rest else (k2, v2) :: mapInsert rest k v

/-- Lookup in the association list model of a Go map. -/
def mapGet (m : List (GoStr × Int)) (k : GoStr) : Option Int :=
  match m with
  | [] => none
  | (k2, v) :: rest => if k2 = k then some v else mapGet rest k

/-- Range loop shared by mapLookup and BuildLabelMap from internal
lookup.go: insert label i at value i, in order. -/
def buildLabelMapAux (m : List (GoStr × Int)) (i : Int) : List GoStr → List (GoStr × Int)
  | [] => m
  | label :: rest => buildLabelMapAux (mapInsert m label i) (i + 1) rest

/-- BuildLabelMap from internal lookup.go: the label to index map built by
inserting every label in order. -/
def BuildLabelMap (labels : List GoStr) : List (GoStr × Int) :=
  buildLabelMapAux [] 0 labels

/-- mapLookup from internal lookup.go: build the transient map, then do a
single key lookup. -/
def mapLookup (labels : List GoStr) (target : GoStr) : Int × Bool :=
  match mapGet (BuildLabelMap labels) target with
  | some val => (val, true)
  | none => (0, false)

/-- DefaultLookupThreshold from internal constants.go; LookupThreshold in
internal lookup.go equals it. -/
def LookupThreshold : Nat := 10

/-- StringToIndex from internal lookup.go: map lookup above the
threshold, linear search otherwise. -/
def StringToIndex (labels : List GoStr) (target : GoStr) : Int × Bool :=
  if labels.length > LookupThreshold then mapLookup labels target
  else linearLookup labels target

/-- Decidable equality of results, for evaluating the model on concrete
inputs. -/
instance {ε α : Type} [DecidableEq ε] [DecidableEq α] : DecidableEq (Except ε α) := fun
  | .ok a, .ok b => decidable_of_iff (a = b) (by simp)
  | .ok _, .error _ => isFalse (by simp)
  | .error _, .ok _ => isFalse (by simp)
  | .error a, .error b => decidable_of_iff (a = b) (by simp)

/-- InvalidLabel from internal constants.go. -/
def InvalidLabel : GoStr := gostr ("Invalid")

/-- Lowercase hexadecimal digit character, as in the table used by the
standard library JSON encoder. -/
def hexDigitChar (n : Nat) : Nat := if n < 10 then 48 + n else 87 + n

/-- Modelled from the spec: the JSON framing layer of the JSON adapter
(wraps the safe label as a JSON string) is delegated to the Go standard
library encoder, whose source is not part of this repository. Byte level
model of its escaping of one byte: quote, backslash, newline, carriage
return and tab get two-character escapes, other control bytes and the
bytes of the characters less-than, greater-than and ampersand get a
lowercase u00XX escape, every other byte passes through. -/
def jsonEscapeByte (c : Nat) : List Nat :=
  if c = 34 then [92, 34]
  else if c = 92 then [92, 92]
  else if c = 10 then [92, 110]
  else if c = 13 then [92, 114]
  else if c = 9 then [92, 116]
  else if c < 32 ∨ c = 60 ∨ c = 62 ∨ c = 38 then
    [92, 117, 48, 48, hexDigitChar (c / 16), hexDigitChar (c % 16)]
  else [c]

/-- Modelled from the spec: json.Marshal of a string value, a quoted
sequence of escaped bytes. -/
def jsonMarshalString (s : GoStr) : List Nat :=
  34 :: (s.flatMap jsonEscapeByte ++ [34])

/-- Value of one hexadecimal digit character, none when the byte is not a
hexadecimal digit. -/
def hexVal (c : Nat) : Option Nat :=
  if 48 ≤ c ∧ c ≤ 57 then some (c - 48)
  else if 97 ≤ c ∧ c ≤ 102 then some (c - 87)
  else if 65 ≤ c ∧ c ≤ 70 then some (c - 55)
  else none

/-- UTF-8 byte encoding of a code point, used when decoding a uXXXX
escape back to bytes. -/
def utf8EncodeNat (n : Nat) : List Nat :=
  if n < 128 then [n]
  else if n < 2048 then [192 + n / 64, 128 + n % 64]
  else if n < 65536 then [224 + n / 4096, 128 + (n / 64) % 64, 128 + n % 64]
  else [240 + n / 262144, 128 + (n / 4096) % 64, 128 + (n / 64) % 64, 128 + n % 64]

/-- Modelled from the spec: the body scanner of json.Unmarshal into a
string, applied to the bytes after the opening quote. Accepts the content
up to a closing quote that must end the input, undoing the escapes; none
models a JSON syntax error. -/
def jsonParseChars : List Nat → Option (List Nat)
  | [] => none
  | c :: rest =>
    if c = 34 then if rest = [] then some [] else none
    else if c = 92 then
      match rest with
      | [] => none
      | e :: rest2 =>
        if e = 117 then
          match rest2 with
          | h1 :: h2 :: h3 :: h4 :: rest3 =>
            match hexVal h1, hexVal h2, hexVal h3, hexVal h4 with
            | some a, some b, some cc, some d =>
              (jsonParseChars rest3).map
                (fun l => utf8EncodeNat (4096 * a + 256 * b + 16 * cc + d) ++ l)
            | _, _, _, _ => none
          | _ => none
        else if e = 34 then (jsonParseChars rest2).map (fun l => 34 :: l)
        else if e = 92 then (jsonParseChars rest2).map (fun l => 92 :: l)
        else if e = 47 then (jsonParseChars rest2).map (fun l => 47 :: l)
        else if e = 98 then (jsonParseChars rest2).map (fun l => 8 :: l)
        else if e = 102 then (jsonParseChars rest2).map (fun l => 12 :: l)
        else if e = 110 then (jsonParseChars rest2).map (fun l => 10 :: l)
        else if e = 114 then (jsonParseChars rest2).map (fun l => 13 :: l)
        else if e = 116 then (jsonParseChars rest2).map (fun l => 9 :: l)
        else none
    else (jsonParseChars rest).map (fun l => c :: l)

/-- Modelled from the spec: json.Unmarshal into a string requires a
quoted string value; none models a syntax or type error of the decoder. -/
def jsonUnmarshalString (input : List Nat) : Option GoStr :=
  match input with
  | [] => none
  | c :: rest => if c = 34 then jsonParseChars rest else none

/-- Resolve tail repeated verbatim by every decoder in internal
marshal.go: if val, found := StringToIndex(labels, s); found, return the
value, else return the zero value and NewInvalidEnumValueError(s, labels). -/
def resolveToIndex (labels : List GoStr) (s : GoStr) : Except Err Int :=
  match StringToIndex labels s with
  | (val, true) => .ok val
  | (_, false) => .error (NewInvalidEnumValueError s labels)

/-- ToJSON from internal marshal.go: marshal the safe label as a JSON
string; json.Marshal of a string never fails. -/
def ToJSON (labels : List GoStr) (v : Int) : Except Err (List Nat) :=
  .ok (jsonMarshalString (SafeGetLabel labels v InvalidLabel))

/-- FromJSON from internal marshal.go: unmarshal a JSON string, then
resolve it with StringToIndex, or fail with the invalid enum value error. -/
def FromJSON (labels : List GoStr) (b : List Nat) : Except Err Int :=
  match jsonUnmarshalString b with
  | none => .error (.jsonMalformed b)
  | some s => resolveToIndex labels s

/-- ToYAML from internal marshal.go: the safe label as a generic scalar,
never an error. -/
def ToYAML (labels : List GoStr) (v : Int) : Except Err GoStr :=
  .ok (SafeGetLabel labels v InvalidLabel)

/-- FromYAML from internal marshal.go. The caller supplied unmarshal
callback writes a string or fails; its outcome is the second argument:
a callback failure propagates verbatim, a string is resolved. -/
def FromYAML (labels : List GoStr) (unmarshalOutcome : Except Err GoStr) : Except Err Int :=
  match unmarshalOutcome with
  | .error e => .error e
  | .ok s => resolveToIndex labels s

/-- ToText from internal marshal.go: the bytes of the safe label, never
an error. -/
def ToText (labels : List GoStr) (v : Int) : Except Err (List Nat) :=
  .ok (SafeGetLabel labels v InvalidLabel)

/-- FromText from internal marshal.go: resolve the raw byte content. -/
def FromText (labels : List GoStr) (text : List Nat) : Except Err Int :=
  resolveToIndex labels text

/-- ToBinary from internal marshal.go: length prefixed label, two byte
big-endian prefix (PutUint16 writes n / 256 then n % 256); labels longer
than 65535 bytes fail with the label too long error. -/
def ToBinary (labels : List GoStr) (v : Int) : Except Err (List Nat) :=
  let label := SafeGetLabel labels v InvalidLabel
  if label.length > 65535 then .error (.labelTooLong label.length 65535)
  else .ok (label.length / 256 :: label.length % 256 :: label)

/-- FromBinary from internal marshal.go: fewer than two bytes fail with
the too short error; then the big-endian prefix declares the payload
length, failing with the truncated error when the data is shorter than
prefix plus payload; the payload slice data[2 : 2+length] is resolved. -/
def FromBinary (labels : List GoStr) (data : List Nat) : Except Err Int :=
  match data with
  | b0 :: b1 :: rest =>
    let length := 256 * b0 + b1
    if rest.length + 2 < 2 + length then
      .error (.binaryTruncated (2 + length) (rest.length + 2))
    else
      resolveToIndex labels (rest.take length)
  | _ => .error (.binaryTooShort 2 data.length)

/-- ToSQLValue from internal marshal.go: an invalid index fails with the
invalid enum value error carrying the empty string, before the safe get
fallback could produce a sentinel; a valid one returns the label. -/
def ToSQLValue (labels : List GoStr) (v : Int) : Except Err GoStr :=
  if IsValidIndex labels v then .ok (SafeGetLabel labels v InvalidLabel)
  else .error (NewInvalidEnumValueError [] labels)

/-- Model of the dynamic value handed to the sql Scanner: nil, a string,
a byte slice, or any other type (represented by an integer, as in the
concrete scenario of the spec). -/
inductive SQLInput where
  | null
  | str (s : GoStr)
  | bytes (b : List Nat)
  | intVal (n : Int)
  deriving DecidableEq

/-- FromSQLValue from internal marshal.go: nil maps to the zero value,
strings and byte slices are resolved identically, any other type fails
with the invalid enum value error carrying a fixed message string. -/
def FromSQLValue (labels : List GoStr) (src : SQLInput) : Except Err Int :=
  match src with
  | .null => .ok 0
  | .str s => resolveToIndex labels s
  | .bytes b => resolveToIndex labels b
  | .intVal _ => .error (NewInvalidEnumValueError (gostr ("non-string SQL value")) labels)

/-- CacheBuilder from internal cache.go: holds the label sequence the
caches are built from. -/
structure CacheBuilder where
  labels : List GoStr

/-- NewCacheBuilder from internal cache.go. -/
def NewCacheBuilder (labels : List GoStr) : CacheBuilder :=
  { labels := labels }

/-- BuildAllValues from internal cache.go: the precomputed slice of all
enum values, allVals[i] = T(i) for every index of the labels. -/
def CacheBuilder.BuildAllValues (cb : CacheBuilder) : List Int :=
  (List.range cb.labels.length).map Int.ofNat

/-- BuildLookupMap from internal cache.go: delegates to BuildLabelMap of
internal lookup.go. -/
def CacheBuilder.BuildLookupMap (cb : CacheBuilder) : List (GoStr × Int) :=
  BuildLabelMap cb.labels

/-- ShouldUseCachedLookup from internal cache.go: whether the label count
exceeds the lookup threshold. -/
def CacheBuilder.ShouldUseCachedLookup (cb : CacheBuilder) : Bool :=
  cb.labels.length > LookupThreshold

/-- Enum struct from enum.go: the labels and the two caches precomputed
at construction. -/
structure EnumCore where
  labels : List GoStr
  labelMap : List (GoStr × Int)
  allVals : List Int

/-- NewEnum from enum.go: create the cache builder once and build both
caches from it. -/
def NewEnum (labels : List GoStr) : EnumCore :=
  { labels := labels
    labelMap := (NewCacheBuilder labels).BuildLookupMap
    allVals := (NewCacheBuilder labels).BuildAllValues }

/-- FromString from enum.go: a precomputed map hit returns the value; a
miss returns the zero value and a plain formatted error built with
fmt.Errorf, carrying only the rejected string in its message. -/
def FromString (e : EnumCore) (s : GoStr) : Except Err Int :=
  match mapGet e.labelMap s with
  | some val => .ok val
  | none => .error (.plain (gostr ("invalid value: ") ++ s))

/-- Position of the first occurrence of a target in a label list, used to
characterise the linear path. -/
def firstIdxAux (target : GoStr) : List GoStr → Option Nat
  | [] => none
  | l :: rest =>
    if l = target then some 0 else
      match firstIdxAux target rest with
      | some p => some (p + 1)
      | none => none

/-- Position of the last occurrence of a target in a label list, used to
characterise the map path. -/
def lastIdxAux (target : GoStr) : List GoStr → Option Nat
  | [] => none
  | l :: rest =>
    match lastIdxAux target rest with
    | some p => some (p + 1)
    | none => if l = target then some 0 else none

lemma linearLookupAux_eq (target : GoStr) (labels : List GoStr) (i : Int) :
    linearLookupAux target i labels =
      match firstIdxAux target labels with
      | some p => (i + (p : Int), true)
      | none => (0, false) := by
  induction labels generalizing i with
  | nil => simp [linearLookupAux, firstIdxAux]
  | cons l rest ih =>
    by_cases h : l = target
    · simp [linearLookupAux, firstIdxAux, h]
    · rw [linearLookupAux, if_neg h, ih (i + 1), firstIdxAux, if_neg h]
      cases hf : firstIdxAux target rest with
      | none => simp
      | some p =>
        have hc : i + 1 + (p : Int) = i + ((p + 1 : Nat) : Int) := by push_cast; ring
        simp [hc]

lemma linearLookup_eq (labels : List GoStr) (target : GoStr) :
    linearLookup labels target =
      match firstIdxAux target labels with
      | some p => ((p : Int), true)
      | none => (0, false) := by
  rw [linearLookup, linearLookupAux_eq]
  cases firstIdxAux target labels <;> simp

lemma mapGet_mapInsert (m : List (GoStr × Int)) (k q : GoStr) (v : Int) :
    mapGet (mapInsert m k v) q = if k = q then some v else mapGet m q := by
  induction m with
  | nil => rw [mapInsert, mapGet]; rfl
  | cons kv rest ih =>
    obtain ⟨k2, v2⟩ := kv
    by_cases h : k2 = k
    · subst h
      by_cases hq : k2 = q <;> simp [mapInsert, mapGet, hq]
    · by_cases hq : k2 = q
      · subst hq
        have hkq : ¬ k = k2 := fun hc => h hc.symm
        simp [mapInsert, mapGet, h, hkq]
      · simp [mapInsert, mapGet, h, hq, ih]

lemma mapGet_buildLabelMapAux (labels : List GoStr) (m : List (GoStr × Int))
    (i : Int) (q : GoStr) :
    mapGet (buildLabelMapAux m i labels) q =
      match lastIdxAux q labels with
      | some p => some (i + (p : Int))
      | none => mapGet m q := by
  induction labels generalizing m i with
  | nil => simp [buildLabelMapAux, lastIdxAux]
  | cons l rest ih =>
    rw [buildLabelMapAux, ih]
    cases hl : lastIdxAux q rest with
    | some p =>
      simp only [lastIdxAux, hl]
      push_cast
      ring_nf
    | none =>
      rw [mapGet_mapInsert]
      by_cases h : l = q <;> simp [lastIdxAux, hl, h]

lemma mapLookup_eq (labels : List GoStr) (target : GoStr) :
    mapLookup labels target =
      match lastIdxAux target labels with
      | some p => ((p : Int), true)
      | none => (0, false) := by
  rw [mapLookup, BuildLabelMap, mapGet_buildLabelMapAux]
  cases lastIdxAux target labels with
  | none => simp [mapGet]
  | some p => simp

lemma firstIdxAux_eq_none_iff (target : GoStr) (labels : List GoStr) :
    firstIdxAux target labels = none ↔ target ∉ labels := by
  induction labels with
  | nil => simp [firstIdxAux]
  | cons l rest ih =>
    by_cases h : l = target
    · simp [firstIdxAux, h]
    · have h2 : ¬ target = l := fun hc => h hc.symm
      rw [firstIdxAux, if_neg h]
      cases hf : firstIdxAux target rest with
      | some p =>
        have hm : target ∈ rest := by
          by_contra hc
          rw [ih.mpr hc] at hf
          exact Option.noConfusion hf
        simp [hm]
      | none => simp [h2, ih.mp hf]

lemma lastIdxAux_eq_none_iff (target : GoStr) (labels : List GoStr) :
    lastIdxAux target labels = none ↔ target ∉ labels := by
  induction labels with
  | nil => simp [lastIdxAux]
  | cons l rest ih =>
    rw [lastIdxAux]
    cases hl : lastIdxAux target rest with
    | some p =>
      have : target ∈ rest := by
        by_contra hc
        rw [(ih.mpr hc : lastIdxAux target rest = none)] at hl
        exact Option.noConfusion hl
      simp [this]
    | none =>
      by_cases h : l = target
      · simp [h]
      · have h2 : ¬ target = l := fun hc => h hc.symm
        simp [h, h2, ih.mp hl]

lemma firstIdxAux_of_nodup (labels : List GoStr) (target : GoStr) (i : Nat)
    (hnd : labels.Nodup) (hget : labels[i]? = some target) :
    firstIdxAux target labels = some i := by
  induction labels generalizing i with
  | nil => simp at hget
  | cons l rest ih =>
    obtain ⟨hnotmem, hrest⟩ := List.nodup_cons.mp hnd
    cases i with
    | zero =>
      simp only [List.getElem?_cons_zero, Option.some.injEq] at hget
      simp [firstIdxAux, hget]
    | succ n =>
      simp only [List.getElem?_cons_succ] at hget
      have hmem : target ∈ rest := List.getElem?_mem hget
      have hlt : ¬ l = target := fun hc => hnotmem (hc ▸ hmem)
      simp [firstIdxAux, hlt, ih n hrest hget]

lemma lastIdxAux_of_nodup (labels : List GoStr) (target : GoStr) (i : Nat)
    (hnd : labels.Nodup) (hget : labels[i]? = some target) :
    lastIdxAux target labels = some i := by
  induction labels generalizing i with
  | nil => simp at hget
  | cons l rest ih =>
    obtain ⟨hnotmem, hrest⟩ := List.nodup_cons.mp hnd
    cases i with
    | zero =>
      simp only [List.getElem?_cons_zero, Option.some.injEq] at hget
      subst hget
      rw [lastIdxAux, (lastIdxAux_eq_none_iff l rest).mpr hnotmem]
      simp
    | succ n =>
      simp only [List.getElem?_cons_succ] at hget
      rw [lastIdxAux, ih n hrest hget]

lemma StringToIndex_of_not_mem (labels : List GoStr) (target : GoStr)
    (h : target ∉ labels) : StringToIndex labels target = (0, false) := by
  rw [StringToIndex]
  split
  · rw [mapLookup_eq, (lastIdxAux_eq_none_iff target labels).mpr h]
  · rw [linearLookup, linearLookupAux_eq, (firstIdxAux_eq_none_iff target labels).mpr h]

lemma StringToIndex_snd_of_mem (labels : List GoStr) (target : GoStr)
    (h : target ∈ labels) : (StringToIndex labels target).2 = true := by
  rw [StringToIndex]
  split
  · rw [mapLookup_eq]
    cases hl : lastIdxAux target labels with
    | none => exact absurd ((lastIdxAux_eq_none_iff target labels).mp hl) (by simp [h])
    | some p => simp
  · rw [linearLookup, linearLookupAux_eq]
    cases hf : firstIdxAux target labels with
    | none => exact absurd ((firstIdxAux_eq_none_iff target labels).mp hf) (by simp [h])
    | some p => simp

lemma StringToIndex_of_nodup (labels : List GoStr) (target : GoStr) (i : Nat)
    (hnd : labels.Nodup) (hget : labels[i]? = some target) :
    StringToIndex labels target = ((i : Int), true) := by
  rw [StringToIndex]
  split
  · rw [mapLookup_eq, lastIdxAux_of_nodup labels target i hnd hget]
  · rw [linearLookup, linearLookupAux_eq, firstIdxAux_of_nodup labels target i hnd hget]
    simp

lemma SafeGetLabel_of_valid (labels : List GoStr) (i : Int) (d : GoStr)
    (h : IsValidIndex labels i = true) :
    labels[i.toNat]? = some (SafeGetLabel labels i d) := by
  have h2 := h
  rw [IsValidIndex, decide_eq_true_eq] at h2
  have hlt : i.toNat < labels.length := by omega
  rw [SafeGetLabel, if_pos h]
  simp [List.getElem?_eq_getElem hlt]

lemma SafeGetLabel_of_invalid (labels : List GoStr) (i : Int) (d : GoStr)
    (h : IsValidIndex labels i = false) : SafeGetLabel labels i d = d := by
  rw [SafeGetLabel, if_neg (by simp [h])]

lemma resolveToIndex_of_not_mem (labels : List GoStr) (s : GoStr) (h : s ∉ labels) :
    resolveToIndex labels s = .error (NewInvalidEnumValueError s labels) := by
  rw [resolveToIndex, StringToIndex_of_not_mem labels s h]

lemma resolveToIndex_of_mem (labels : List GoStr) (s : GoStr) (h : s ∈ labels) :
    resolveToIndex labels s = .ok (StringToIndex labels s).1 := by
  rw [resolveToIndex]
  rcases hst : StringToIndex labels s with ⟨val, found⟩
  have h2 := StringToIndex_snd_of_mem labels s h
  rw [hst] at h2
  subst h2
  simp [hst]

lemma resolveToIndex_of_nodup (labels : List GoStr) (s : GoStr) (i : Nat)
    (hnd : labels.Nodup) (hget : labels[i]? = some s) :
    resolveToIndex labels s = .ok (i : Int) := by
  rw [resolveToIndex, StringToIndex_of_nodup labels s i hnd hget]

lemma hexVal_hexDigitChar (x : Nat) (h : x < 16) : hexVal (hexDigitChar x) = some x := by
  interval_cases x <;> decide

lemma jsonParseChars_escape (c : Nat) (rest : List Nat) :
    jsonParseChars (jsonEscapeByte c ++ rest) =
      (jsonParseChars rest).map (fun l => c :: l) := by
  by_cases h34 : c = 34
  · subst h34
    simp only [jsonEscapeByte, List.cons_append, List.nil_append]
    rw [jsonParseChars.eq_def]
    simp
  by_cases h92 : c = 92
  · subst h92
    simp only [jsonEscapeByte, List.cons_append, List.nil_append]
    rw [jsonParseChars.eq_def]
    simp
  by_cases h10 : c = 10
  · subst h10
    simp only [jsonEscapeByte, List.cons_append, List.nil_append]
    rw [jsonParseChars.eq_def]
    simp
  by_cases h13 : c = 13
  · subst h13
    simp only [jsonEscapeByte, List.cons_append, List.nil_append]
    rw [jsonParseChars.eq_def]
    simp
  by_cases h9 : c = 9
  · subst h9
    simp only [jsonEscapeByte, List.cons_append, List.nil_append]
    rw [jsonParseChars.eq_def]
    simp
  by_cases hesc : c < 32 ∨ c = 60 ∨ c = 62 ∨ c = 38
  · have hlt : c < 128 := by rcases hesc with h | h | h | h <;> omega
    have hd1 : hexVal (hexDigitChar (c / 16)) = some (c / 16) :=
      hexVal_hexDigitChar _ (by omega)
    have hd2 : hexVal (hexDigitChar (c % 16)) = some (c % 16) :=
      hexVal_hexDigitChar _ (by omega)
    have h48 : hexVal 48 = some 0 := by decide
    rw [jsonEscapeByte, if_neg h34, if_neg h92, if_neg h10, if_neg h13, if_neg h9,
      if_pos hesc]
    simp only [List.cons_append, List.nil_append]
    rw [jsonParseChars.eq_def]
    simp only [hd1, hd2, h48]
    have hval : 4096 * 0 + 256 * 0 + 16 * (c / 16) + c % 16 = c := by omega
    simp only [hval]
    cases hp : jsonParseChars rest with
    | none => simp
    | some l => simp [utf8EncodeNat, hlt]
  · rw [jsonEscapeByte, if_neg h34, if_neg h92, if_neg h10, if_neg h13, if_neg h9,
      if_neg hesc]
    simp only [List.cons_append, List.nil_append]
    rw [jsonParseChars.eq_def]
    simp [h34, h92]

lemma jsonParseChars_flatMap (s : GoStr) :
    jsonParseChars (s.flatMap jsonEscapeByte ++ [34]) = some s := by
  induction s with
  | nil => simp [jsonParseChars]
  | cons c cs ih =>
    rw [List.flatMap_cons, List.append_assoc, jsonParseChars_escape, ih]
    rfl

lemma json_roundtrip (s : GoStr) :
    jsonUnmarshalString (jsonMarshalString s) = some s := by
  rw [jsonMarshalString, jsonUnmarshalString]
  simp [jsonParseChars_flatMap s]

/-- C1: the claim states that resolving a label occurring at positions
p1 less than p2 returns p1, the first occurrence, on both lookup paths.
Evaluating the code on eleven labels whose first two entries are equal:
the sequence is above the threshold, so StringToIndex takes the map path,
whose map build overwrites the entry of a duplicate key, and the resolver
returns index 1, the last occurrence, not 0. -/
theorem C1_duplicate_first_occurrence_eval :
    ([gostr ("x"), gostr ("x"), gostr ("c2"), gostr ("c3"), gostr ("c4"),
        gostr ("c5"), gostr ("c6"), gostr ("c7"), gostr ("c8"), gostr ("c9"),
        gostr ("c10")].length > LookupThreshold) ∧
    ([gostr ("x"), gostr ("x"), gostr ("c2"), gostr ("c3"), gostr ("c4"),
        gostr ("c5"), gostr ("c6"), gostr ("c7"), gostr ("c8"), gostr ("c9"),
        gostr ("c10")][0]? = some (gostr ("x"))) ∧
    ([gostr ("x"), gostr ("x"), gostr ("c2"), gostr ("c3"), gostr ("c4"),
        gostr ("c5"), gostr ("c6"), gostr ("c7"), gostr ("c8"), gostr ("c9"),
        gostr ("c10")][1]? = some (gostr ("x"))) ∧
    StringToIndex
      [gostr ("x"), gostr ("x"), gostr ("c2"), gostr ("c3"), gostr ("c4"),
        gostr ("c5"), gostr ("c6"), gostr ("c7"), gostr ("c8"), gostr ("c9"),
        gostr ("c10")] (gostr ("x")) = (1, true) := by
  refine ⟨by decide, by decide, by decide, ?_⟩
  decide

/-- C2: the claim states that the linear path and the map path return
identical pairs for every label sequence and target. Evaluating both
paths on a sequence with a duplicated label: the linear scan returns the
first occurrence, index 0, while the map lookup returns the last
occurrence, index 1, so the pairs differ. -/
theorem C2_paths_disagree_eval :
    linearLookup
        [gostr ("y"), gostr ("y"), gostr ("d2"), gostr ("d3"), gostr ("d4"),
          gostr ("d5"), gostr ("d6"), gostr ("d7"), gostr ("d8"), gostr ("d9"),
          gostr ("d10")] (gostr ("y")) = (0, true) ∧
    mapLookup
        [gostr ("y"), gostr ("y"), gostr ("d2"), gostr ("d3"), gostr ("d4"),
          gostr ("d5"), gostr ("d6"), gostr ("d7"), gostr ("d8"), gostr ("d9"),
          gostr ("d10")] (gostr ("y")) = (1, true) := by
  constructor <;> decide

/-- C4: the four validator forms agree for every label sequence, index
and default: ValidateIndex returns no error exactly when IsValidIndex
holds, exactly when SafeGetLabelWithError succeeds, and validity is
exactly 0 le i lt len; SafeGetLabel returns the element stored at the
index when it is valid, independent of the default, and the default
otherwise. -/
theorem C4_validators_agree (labels : List GoStr) (i : Int) (d : GoStr) :
    (ValidateIndex labels i = none ↔ IsValidIndex labels i = true) ∧
    ((∃ s, SafeGetLabelWithError labels i = .ok s) ↔ IsValidIndex labels i = true) ∧
    (IsValidIndex labels i = false ↔ (i < 0 ∨ (labels.length : Int) ≤ i)) ∧
    (IsValidIndex labels i = true → labels[i.toNat]? = some (SafeGetLabel labels i d)) ∧
    (IsValidIndex labels i = false → SafeGetLabel labels i d = d) := by
  have hiff : IsValidIndex labels i = true ↔ (0 ≤ i ∧ i < (labels.length : Int)) := by
    simp [IsValidIndex]
  refine ⟨?_, ?_, ?_, ?_, ?_⟩
  · rw [ValidateIndex]
    split_ifs with h <;> simp [hiff] <;> omega
  · rw [SafeGetLabelWithError, ValidateIndex]
    split_ifs with h <;> simp [hiff] <;> omega
  · constructor
    · intro h
      by_contra hc
      rw [hiff.mpr (by omega)] at h
      exact Bool.noConfusion h
    · intro h
      cases hb : IsValidIndex labels i
      · rfl
      · exact absurd (hiff.mp hb) (by omega)
  · exact fun h => SafeGetLabel_of_valid labels i d h
  · exact fun h => SafeGetLabel_of_invalid labels i d h

/-- C4 witness: the theorem applied to the one-label sequence at the
valid index 0 and at the invalid index minus one. -/
theorem C4_validators_agree_witness :
    [gostr ("a")][(0 : Int).toNat]? = some (SafeGetLabel [gostr ("a")] 0 (gostr ("z"))) ∧
    SafeGetLabel [gostr ("a")] (-1) (gostr ("z")) = gostr ("z") :=
  ⟨(C4_validators_agree [gostr ("a")] 0 (gostr ("z"))).2.2.2.1 (by decide),
    (C4_validators_agree [gostr ("a")] (-1) (gostr ("z"))).2.2.2.2 (by decide)⟩

/-- C6: for every label sequence and invalid index, the JSON, YAML, text
and binary encoders succeed and emit the sentinel label Invalid in the
respective framing: a quoted JSON string, a bare scalar, raw bytes, and a
length prefixed record. -/
theorem C6_invalid_index_encodes_sentinel (labels : List GoStr) (i : Int)
    (h : IsValidIndex labels i = false) :
    ToJSON labels i = .ok (34 :: (gostr ("Invalid") ++ [34])) ∧
    ToYAML labels i = .ok (gostr ("Invalid")) ∧
    ToText labels i = .ok (gostr ("Invalid")) ∧
    ToBinary labels i = .ok (0 :: 7 :: gostr ("Invalid")) := by
  have hs := SafeGetLabel_of_invalid labels i InvalidLabel h
  refine ⟨?_, ?_, ?_, ?_⟩
  · simp only [ToJSON, hs]
    decide
  · simp only [ToYAML, hs]
    decide
  · simp only [ToText, hs]
    decide
  · simp only [ToBinary, hs]
    decide

/-- C6 witness: the theorem applied to a one-label sequence at the
out-of-range index 5. -/
theorem C6_invalid_index_encodes_sentinel_witness :
    ToJSON [gostr ("a")] 5 = .ok (34 :: (gostr ("Invalid") ++ [34])) ∧
    ToYAML [gostr ("a")] 5 = .ok (gostr ("Invalid")) ∧
    ToText [gostr ("a")] 5 = .ok (gostr ("Invalid")) ∧
    ToBinary [gostr ("a")] 5 = .ok (0 :: 7 :: gostr ("Invalid")) :=
  C6_invalid_index_encodes_sentinel [gostr ("a")] 5 (by decide)

/-- C8: for every label sequence and index, the SQL value encoder fails
with the invalid enum value error exactly when the index is outside
0 le i lt len, and otherwise returns the label stored at the index; it
never substitutes the sentinel for an out-of-range index, since that
case is an error. -/
theorem C8_sqlvalue_checks_validity (labels : List GoStr) (v : Int) :
    ((∃ e, ToSQLValue labels v = .error e) ↔ ¬ (0 ≤ v ∧ v < (labels.length : Int))) ∧
    ((ToSQLValue labels v = .error (.invalidEnumValue [] (copyStrings labels))) ↔
      ¬ (0 ≤ v ∧ v < (labels.length : Int))) ∧
    ((∃ s, labels[v.toNat]? = some s ∧ ToSQLValue labels v = .ok s) ↔
      (0 ≤ v ∧ v < (labels.length : Int))) := by
  have hiff : IsValidIndex labels v = true ↔ (0 ≤ v ∧ v < (labels.length : Int)) := by
    simp [IsValidIndex]
  cases hb : IsValidIndex labels v
  · have hrange : ¬ (0 ≤ v ∧ v < (labels.length : Int)) := fun hc => by
      rw [hiff.mpr hc] at hb
      exact Bool.noConfusion hb
    refine ⟨?_, ?_, ?_⟩
    · simp [ToSQLValue, hb, NewInvalidEnumValueError, hrange]
    · simp [ToSQLValue, hb, NewInvalidEnumValueError, hrange]
    · simp [ToSQLValue, hb, hrange]
  · have hrange := hiff.mp hb
    have hget := SafeGetLabel_of_valid labels v InvalidLabel hb
    refine ⟨?_, ?_, ?_⟩
    · simp [ToSQLValue, hb, hrange]
    · simp [ToSQLValue, hb, hrange]
    · simp only [ToSQLValue, hb, if_true]
      exact ⟨fun _ => hrange, fun _ => ⟨SafeGetLabel labels v InvalidLabel, hget, rfl⟩⟩

/-- C9: for every label sequence, SQL scan of nil returns the zero index
with no error, a byte sequence is scanned exactly like the corresponding
string, a string succeeds exactly when it is one of the labels and
otherwise fails with the invalid enum value error, and an integer input
always fails with an error. -/
theorem C9_sqlscan_inputs (labels : List GoStr) (s : GoStr) (n : Int) :
    FromSQLValue labels .null = .ok 0 ∧
    FromSQLValue labels (.bytes s) = FromSQLValue labels (.str s) ∧
    ((∃ v, FromSQLValue labels (.str s) = .ok v) ↔ s ∈ labels) ∧
    ((FromSQLValue labels (.str s) = .error (.invalidEnumValue s (copyStrings labels))) ↔
      s ∉ labels) ∧
    (∃ e, FromSQLValue labels (.intVal n) = .error e) := by
  refine ⟨rfl, rfl, ?_, ?_, ⟨NewInvalidEnumValueError (gostr ("non-string SQL value")) labels, rfl⟩⟩
  · by_cases h : s ∈ labels
    · simp [FromSQLValue, resolveToIndex_of_mem labels s h, h]
    · simp [FromSQLValue, resolveToIndex_of_not_mem labels s h, h]
  · by_cases h : s ∈ labels
    · simp [FromSQLValue, resolveToIndex_of_mem labels s h, h]
    · simp [FromSQLValue, resolveToIndex_of_not_mem labels s h, h, NewInvalidEnumValueError]

/-- C10: when the two byte prefix declares a payload length that fits in
the remaining bytes, binary decode reads exactly that many bytes after
the prefix and ignores everything beyond them: the result equals the
decode of the input truncated to prefix plus payload, and it succeeds
exactly when the payload bytes equal some label. -/
theorem C10_trailing_bytes_ignored (labels : List GoStr) (b0 b1 : Nat)
    (rest : List Nat) (h : 256 * b0 + b1 ≤ rest.length) :
    FromBinary labels (b0 :: b1 :: rest) =
      FromBinary labels (b0 :: b1 :: rest.take (256 * b0 + b1)) ∧
    ((∃ v, FromBinary labels (b0 :: b1 :: rest) = .ok v) ↔
      rest.take (256 * b0 + b1) ∈ labels) := by
  have hlen : (rest.take (256 * b0 + b1)).length = 256 * b0 + b1 := by
    rw [List.length_take]
    omega
  constructor
  · simp only [FromBinary]
    rw [if_neg (by omega), if_neg (by rw [hlen]; omega)]
    rw [List.take_take]
    simp
  · simp only [FromBinary]
    rw [if_neg (by omega)]
    by_cases hm : rest.take (256 * b0 + b1) ∈ labels
    · simp [resolveToIndex_of_mem labels _ hm, hm]
    · simp [resolveToIndex_of_not_mem labels _ hm, hm]

/-- C10 witness: the theorem applied to a concrete input with two
trailing junk bytes after a one byte payload. -/
theorem C10_trailing_bytes_ignored_witness :
    FromBinary [[97]] (0 :: 1 :: [97, 55, 56]) =
      FromBinary [[97]] (0 :: 1 :: [97, 55, 56].take (256 * 0 + 1)) ∧
    ((∃ v, FromBinary [[97]] (0 :: 1 :: [97, 55, 56]) = .ok v) ↔
      [97, 55, 56].take (256 * 0 + 1) ∈ [[97]]) :=
  C10_trailing_bytes_ignored [[97]] 0 1 [97, 55, 56] (by decide)

/-- C5: binary encode emits the two byte big-endian length prefix then
the raw label bytes, failing with the label too long error exactly when
the encoded label exceeds 65535 bytes; decode fails with the too short
error exactly when fewer than two bytes are supplied, and with the
truncated error carrying prefix plus declared length against the actual
length exactly when the declared payload exceeds the remaining bytes;
and the four concrete scenarios of the spec evaluate as stated. -/
theorem C5_binary_wire_format :
    (∀ labels v, (∃ e, ToBinary labels v = .error e) ↔
        65535 < (SafeGetLabel labels v InvalidLabel).length) ∧
    (∀ labels v, (ToBinary labels v =
          .error (.labelTooLong (SafeGetLabel labels v InvalidLabel).length 65535)) ↔
        65535 < (SafeGetLabel labels v InvalidLabel).length) ∧
    (∀ labels v, 65535 < (SafeGetLabel labels v InvalidLabel).length ∨
        ToBinary labels v = .ok ((SafeGetLabel labels v InvalidLabel).length / 256 ::
          (SafeGetLabel labels v InvalidLabel).length % 256 ::
          SafeGetLabel labels v InvalidLabel)) ∧
    (∀ labels data, (FromBinary labels data = .error (.binaryTooShort 2 data.length)) ↔
        data.length < 2) ∧
    (∀ labels b0 b1 rest, (FromBinary labels (b0 :: b1 :: rest) =
          .error (.binaryTruncated (2 + (256 * b0 + b1)) (rest.length + 2))) ↔
        rest.length < 256 * b0 + b1) ∧
    (ToBinary [gostr ("first"), gostr ("second"), gostr ("third")] 0 =
      .ok [0, 5, 102, 105, 114, 115, 116]) ∧
    (FromBinary [gostr ("first"), gostr ("second"), gostr ("third")]
        [0, 5, 102, 105, 114, 115, 116] = .ok 0) ∧
    (FromBinary [gostr ("first"), gostr ("second"), gostr ("third")] [] =
      .error (.binaryTooShort 2 0)) ∧
    (FromBinary [gostr ("first"), gostr ("second"), gostr ("third")] [0, 10, 97, 98] =
      .error (.binaryTruncated 12 4)) := by
  refine ⟨?_, ?_, ?_, ?_, ?_, by decide, by decide, by decide, by decide⟩
  · intro labels v
    simp only [ToBinary]
    split_ifs with h <;> simp [h]
  · intro labels v
    simp only [ToBinary]
    split_ifs with h <;> simp [h]
  · intro labels v
    simp only [ToBinary]
    split_ifs with h
    · exact Or.inl h
    · exact Or.inr rfl
  · intro labels data
    match data with
    | [] => simp [FromBinary]
    | [b0] => simp [FromBinary]
    | b0 :: b1 :: rest =>
      refine iff_of_false ?_ (by simp)
      intro hc
      simp only [FromBinary] at hc
      split_ifs at hc with h
      · simp at hc
      · by_cases hm : rest.take (256 * b0 + b1) ∈ labels
        · rw [resolveToIndex_of_mem labels _ hm] at hc
          exact Except.noConfusion hc
        · rw [resolveToIndex_of_not_mem labels _ hm] at hc
          simp [NewInvalidEnumValueError] at hc
  · intro labels b0 b1 rest
    simp only [FromBinary]
    split_ifs with h
    · exact iff_of_true rfl (by omega)
    · refine iff_of_false ?_ (by omega)
      intro hc
      by_cases hm : rest.take (256 * b0 + b1) ∈ labels
      · rw [resolveToIndex_of_mem labels _ hm] at hc
        exact Except.noConfusion hc
      · rw [resolveToIndex_of_not_mem labels _ hm] at hc
        simp [NewInvalidEnumValueError] at hc

/-- C3 counterexample: the claim quantifies over every label sequence
and valid index, but with the two label sequence a, a the valid index 1
text-encodes to the bytes of a, which decodes to index 0, not 1; and
with a single 65536 byte label the valid index 0 cannot even be binary
encoded: the encoder fails with the label too long error. -/
theorem C3_counterexample :
    (ToText [gostr ("a"), gostr ("a")] 1 = .ok (gostr ("a")) ∧
      FromText [gostr ("a"), gostr ("a")] (gostr ("a")) = .ok 0) ∧
    ToBinary [List.replicate 65536 97] 0 = .error (.labelTooLong 65536 65535) := by
  refine ⟨⟨by decide, by decide⟩, ?_⟩
  have hlen1 : ([List.replicate 65536 97] : List GoStr).length = 1 := rfl
  have hval : IsValidIndex [List.replicate 65536 97] 0 = true := by
    rw [IsValidIndex, hlen1]
    decide
  have hsafe : SafeGetLabel [List.replicate 65536 97] 0 InvalidLabel =
      List.replicate 65536 97 := by
    rw [SafeGetLabel, if_pos hval]
    rfl
  simp only [ToBinary, hsafe, List.length_replicate]
  norm_num

/-- C3 amended: for every label sequence with pairwise distinct labels
and every valid index, encoding through JSON or text and decoding with
the matching decoder returns the original index with no error, and the
same holds for binary whenever the stored label fits in 65535 bytes. -/
theorem C3_roundtrip_distinct (labels : List GoStr) (hnd : labels.Nodup)
    (i : Nat) (t : GoStr) (hget : labels[i]? = some t) :
    (ToJSON labels (i : Int)).bind (FromJSON labels) = .ok (i : Int) ∧
    (ToText labels (i : Int)).bind (FromText labels) = .ok (i : Int) ∧
    (t.length ≤ 65535 →
      (ToBinary labels (i : Int)).bind (FromBinary labels) = .ok (i : Int)) := by
  have hi : i < labels.length := by
    rcases List.getElem?_eq_some.mp hget with ⟨h, _⟩
    exact h
  have hvalid : IsValidIndex labels (i : Int) = true := by
    simp [IsValidIndex]
    omega
  have htonat : ((i : Nat) : Int).toNat = i := Int.toNat_natCast i
  have hsafe : SafeGetLabel labels (i : Int) InvalidLabel = t := by
    have h2 := SafeGetLabel_of_valid labels (i : Int) InvalidLabel hvalid
    rw [htonat, hget] at h2
    exact (Option.some.inj h2).symm
  have hres : resolveToIndex labels t = .ok (i : Int) :=
    resolveToIndex_of_nodup labels t i hnd hget
  refine ⟨?_, ?_, ?_⟩
  · simp only [ToJSON, hsafe, Except.bind]
    simp [FromJSON, json_roundtrip t, hres]
  · simp only [ToText, hsafe, Except.bind]
    simp [FromText, hres]
  · intro hlen
    have hdm : 256 * (t.length / 256) + t.length % 256 = t.length :=
      Nat.div_add_mod t.length 256
    simp only [ToBinary, hsafe]
    rw [if_neg (by omega)]
    simp only [Except.bind, FromBinary, hdm]
    rw [if_neg (by omega), List.take_length]
    exact hres

/-- C3 witness: the amended theorem applied to the three distinct labels
red, green, blue at index 1, with every hypothesis discharged. -/
theorem C3_roundtrip_distinct_witness :
    (ToJSON [gostr ("red"), gostr ("green"), gostr ("blue")] ((1 : Nat) : Int)).bind
        (FromJSON [gostr ("red"), gostr ("green"), gostr ("blue")]) =
      .ok ((1 : Nat) : Int) ∧
    (ToText [gostr ("red"), gostr ("green"), gostr ("blue")] ((1 : Nat) : Int)).bind
        (FromText [gostr ("red"), gostr ("green"), gostr ("blue")]) =
      .ok ((1 : Nat) : Int) ∧
    (ToBinary [gostr ("red"), gostr ("green"), gostr ("blue")] ((1 : Nat) : Int)).bind
        (FromBinary [gostr ("red"), gostr ("green"), gostr ("blue")]) =
      .ok ((1 : Nat) : Int) :=
  ⟨(C3_roundtrip_distinct [gostr ("red"), gostr ("green"), gostr ("blue")]
      (by decide) 1 (gostr ("green")) (by decide)).1,
    (C3_roundtrip_distinct [gostr ("red"), gostr ("green"), gostr ("blue")]
      (by decide) 1 (gostr ("green")) (by decide)).2.1,
    (C3_roundtrip_distinct [gostr ("red"), gostr ("green"), gostr ("blue")]
      (by decide) 1 (gostr ("green")) (by decide)).2.2 (by decide)⟩

/-- C7 counterexample: the claim states that every resolution failure,
including FromString of the Enum Core, raises the structured invalid
value error carrying the rejected string and the valid label list; but
FromString on the one label sequence a with the unknown string b returns
the plain formatted error built by fmt.Errorf, which carries only the
message bytes, and not the structured error the claim requires. -/
theorem C7_counterexample :
    FromString (NewEnum [gostr ("a")]) (gostr ("b")) =
        .error (.plain (gostr ("invalid value: b"))) ∧
    ¬ FromString (NewEnum [gostr ("a")]) (gostr ("b")) =
        .error (.invalidEnumValue (gostr ("b")) [gostr ("a")]) := by
  constructor <;> decide

/-- C7 amended: every decoding adapter raises, on a failed resolution,
the invalid enum value error carrying the rejected string and a copy of
the full valid label list (the copy has the same elements as the list at
raise time), while FromString of the Enum Core raises a plain formatted
error carrying only the rejected string in its message. -/
theorem C7_invalid_value_error_payload (labels : List GoStr) (s : GoStr)
    (h : s ∉ labels) :
    copyStrings labels = labels ∧
    FromText labels s = .error (.invalidEnumValue s (copyStrings labels)) ∧
    FromJSON labels (jsonMarshalString s) =
      .error (.invalidEnumValue s (copyStrings labels)) ∧
    FromYAML labels (.ok s) = .error (.invalidEnumValue s (copyStrings labels)) ∧
    FromSQLValue labels (.str s) = .error (.invalidEnumValue s (copyStrings labels)) ∧
    FromSQLValue labels (.bytes s) = .error (.invalidEnumValue s (copyStrings labels)) ∧
    (s.length ≤ 65535 →
      FromBinary labels (s.length / 256 :: s.length % 256 :: s) =
        .error (.invalidEnumValue s (copyStrings labels))) ∧
    FromString (NewEnum labels) s = .error (.plain (gostr ("invalid value: ") ++ s)) := by
  have hres := resolveToIndex_of_not_mem labels s h
  refine ⟨by simp [copyStrings], ?_, ?_, ?_, ?_, ?_, ?_, ?_⟩
  · rw [FromText, hres]
    rfl
  · simp [FromJSON, json_roundtrip s, hres, NewInvalidEnumValueError]
  · simp [FromYAML, hres, NewInvalidEnumValueError]
  · simp [FromSQLValue, hres, NewInvalidEnumValueError]
  · simp [FromSQLValue, hres, NewInvalidEnumValueError]
  · intro hlen
    have hdm : 256 * (s.length / 256) + s.length % 256 = s.length :=
      Nat.div_add_mod s.length 256
    simp only [FromBinary, hdm]
    rw [if_neg (by omega), List.take_length, hres]
    rfl
  · have hnone : mapGet (BuildLabelMap labels) s = none := by
      rw [BuildLabelMap, mapGet_buildLabelMapAux,
        (lastIdxAux_eq_none_iff s labels).mpr h]
      rfl
    simp [FromString, NewEnum, CacheBuilder.BuildLookupMap, NewCacheBuilder, hnone]

/-- C7 witness: the amended theorem applied to the one label sequence a
and the unresolvable string b. -/
theorem C7_invalid_value_error_payload_witness :
    copyStrings [gostr ("a")] = [gostr ("a")] ∧
    FromText [gostr ("a")] (gostr ("b")) =
      .error (.invalidEnumValue (gostr ("b")) (copyStrings [gostr ("a")])) ∧
    FromJSON [gostr ("a")] (jsonMarshalString (gostr ("b"))) =
      .error (.invalidEnumValue (gostr ("b")) (copyStrings [gostr ("a")])) ∧
    FromYAML [gostr ("a")] (.ok (gostr ("b"))) =
      .error (.invalidEnumValue (gostr ("b")) (copyStrings [gostr ("a")])) ∧
    FromSQLValue [gostr ("a")] (.str (gostr ("b"))) =
      .error (.invalidEnumValue (gostr ("b")) (copyStrings [gostr ("a")])) ∧
    FromSQLValue [gostr ("a")] (.bytes (gostr ("b"))) =
      .error (.invalidEnumValue (gostr ("b")) (copyStrings [gostr ("a")])) ∧
    ((gostr ("b")).length ≤ 65535 →
      FromBinary [gostr ("a")]
          ((gostr ("b")).length / 256 :: (gostr ("b")).length % 256 :: gostr ("b")) =
        .error (.invalidEnumValue (gostr ("b")) (copyStrings [gostr ("a")]))) ∧
    FromString (NewEnum [gostr ("a")]) (gostr ("b")) =
      .error (.plain (gostr ("invalid value: ") ++ gostr ("b"))) :=
  C7_invalid_value_error_payload [gostr ("a")] (gostr ("b")) (by decide)

